import Mathlib

/-!
Verification of the commit-navigation and checkout logic of `src/src/git.rs`.

The repository code is a thin wrapper (`Repo`) around an external
version-control transport (the `git` binary, spawned through
`Command::new("git")`).  The wrapper logic (result decoding, error mapping,
Nth-commit resolution, checkout sequencing, file-list canonicalization) is
embedded below directly from the source.  The transport itself is not part of
the repository; it is modelled from the spec (section 6) as a deterministic
interpreter `runCmd` over an abstract repository state `GitState`.

Machine-level details modelled away (noted where relevant):
* raw output bytes are modelled as `String` (UTF-8 decoding always succeeds;
  the decoding-failure path of `String::from_utf8` is an error in the source
  and is not load-bearing for any claim);
* process spawning always succeeds (the `io::Result` layer of the source can
  only fail when the binary cannot be started);
* `GitState.calls` is ghost instrumentation counting transport invocations,
  used to state that an operation does or does not reach the transport.
-/

/-- A commit of the modelled repository: identifier (hash), subject line and
the list of repository-relative paths the commit touched. -/
structure Commit where
  hash : String
  message : String
  files : List String
deriving DecidableEq, Repr

/-- Modelled from the spec: the state of the external working tree seen by the
Command Runner.  `commits` is the branch history, newest first (`commits.head`
is the branch tip).  `branch` is the name of the branch, `head` the ref the
working tree currently has checked out, `fs` an association list mapping
repository-relative paths to their absolute, symlink-resolved form (the
filesystem view used by path canonicalization), and `calls` a ghost counter of
transport invocations. -/
structure GitState where
  commits : List Commit
  branch : String
  head : String
  fs : List (String × String)
  calls : Nat
deriving DecidableEq, Repr

/-- The result of one transport invocation: exit status, decoded standard
output and decoded standard error (`std::process::Output`). -/
structure Output where
  status : Nat
  stdout : String
  stderr : String
deriving DecidableEq, Repr

deriving instance DecidableEq for Except

/-- Join a list of lines with a single newline separator and no trailing
terminator (the line-oriented text form in which the transport model returns
multi-line results). -/
def joinNL : List String → String
  | [] => ""
  | [x] => x
  | x :: y :: ys => x ++ "\n" ++ joinNL (y :: ys)

/-- Character-list version of `joinNL`. -/
def charJoin : List (List Char) → List Char
  | [] => []
  | [x] => x
  | x :: y :: ys => x ++ '\n' :: charJoin (y :: ys)

/-- Split a character list at every newline; the result always has one more
part than there are newlines. -/
def splitNL : List Char → List (List Char)
  | [] => [[]]
  | c :: rest =>
    let ps := splitNL rest
    if c = '\n' then [] :: ps else (c :: ps.headI) :: ps.tail

/-- Remove one trailing carriage return, if present. -/
def stripCR (l : List Char) : List Char :=
  if l.getLast? = some '\r' then l.dropLast else l

/-- Rust `str::lines` on a character list: split at `\n`, do not produce a
final empty line for a trailing terminator, and strip one `\r` from every
line that was terminated by `\n` (`\r\n` line endings). -/
def linesCh (l : List Char) : List (List Char) :=
  if l = [] then []
  else if l.getLast? = some '\n' then ((splitNL l).dropLast).map stripCR
  else ((splitNL l).dropLast).map stripCR ++ [(splitNL l).getLastD []]

/-- Rust `str::lines` on a string. -/
def rustLines (s : String) : List String :=
  (linesCh s.data).map String.mk

/-- A string that round-trips through line joining and splitting: non-empty,
no embedded newline, no trailing carriage return.  Commit hashes and
repository file paths have this shape. -/
def CleanLine (x : String) : Prop :=
  x.data ≠ [] ∧ '\n' ∉ x.data ∧ x.data.getLast? ≠ some '\r'

instance (x : String) : Decidable (CleanLine x) := by
  unfold CleanLine; infer_instance

theorem data_append (s t : String) : (s ++ t).data = s.data ++ t.data := by
  cases s; cases t; rfl

theorem joinNL_data (l : List String) :
    (joinNL l).data = charJoin (l.map String.data) := by
  induction l with
  | nil => rfl
  | cons x xs ih =>
    cases xs with
    | nil => rfl
    | cons y ys =>
      simp only [joinNL, charJoin, List.map, data_append, ih]
      simp

theorem splitNL_ne_nil (l : List Char) : splitNL l ≠ [] := by
  cases l with
  | nil => simp [splitNL]
  | cons c rest =>
    simp only [splitNL]
    split <;> simp

theorem splitNL_no_newline (a : List Char) (h : '\n' ∉ a) : splitNL a = [a] := by
  induction a with
  | nil => rfl
  | cons c rest ih =>
    have hc : c ≠ '\n' := fun hh => h (hh ▸ List.mem_cons_self c rest)
    have hrest : '\n' ∉ rest := fun hh => h (List.mem_cons_of_mem c hh)
    simp [splitNL, hc, ih hrest]

theorem splitNL_append (a b : List Char) (h : '\n' ∉ a) :
    splitNL (a ++ '\n' :: b) = a :: splitNL b := by
  induction a with
  | nil => simp [splitNL]
  | cons c rest ih =>
    have hc : c ≠ '\n' := fun hh => h (hh ▸ List.mem_cons_self c rest)
    have hrest : '\n' ∉ rest := fun hh => h (List.mem_cons_of_mem c hh)
    simp only [List.cons_append, splitNL, List.append_eq]
    rw [ih hrest]
    simp [hc]

/-- A character-list line that round-trips. -/
def CleanCh (x : List Char) : Prop :=
  x ≠ [] ∧ '\n' ∉ x ∧ x.getLast? ≠ some '\r'

theorem cleanCh_of_cleanLine {x : String} (h : CleanLine x) : CleanCh x.data := h

theorem charJoin_ne_nil (l : List (List Char)) (hl : l ≠ [])
    (h : ∀ x ∈ l, x ≠ []) : charJoin l ≠ [] := by
  cases l with
  | nil => exact absurd rfl hl
  | cons x xs =>
    cases xs with
    | nil => exact h x (List.mem_cons_self _ _)
    | cons y ys =>
      simp only [charJoin]
      intro hcontra
      have := List.append_eq_nil.mp hcontra
      exact absurd this.2 (by simp)

theorem charJoin_getLast? (l : List (List Char)) (hl : l ≠ [])
    (h : ∀ x ∈ l, CleanCh x) :
    (charJoin l).getLast? = (l.getLastD []).getLast? := by
  induction l with
  | nil => exact absurd rfl hl
  | cons x xs ih =>
    cases xs with
    | nil => rfl
    | cons y ys =>
      have hys : ∀ z ∈ y :: ys, CleanCh z := fun z hz =>
        h z (List.mem_cons_of_mem x hz)
      have hne : charJoin (y :: ys) ≠ [] :=
        charJoin_ne_nil _ (by simp) (fun z hz => (hys z hz).1)
      simp only [charJoin]
      rw [List.getLast?_append_cons]
      cases hcj : charJoin (y :: ys) with
      | nil => exact absurd hcj hne
      | cons c cs =>
        rw [List.getLast?_cons_cons]
        rw [← hcj, ih (by simp) hys]
        simp [List.getLastD]

theorem getLast?_ne_of_not_mem {l : List Char} {c : Char} (h : c ∉ l) :
    l.getLast? ≠ some c := by
  intro hc
  rcases List.mem_getLast?_eq_getLast hc with ⟨hne, heq⟩
  exact h (heq ▸ List.getLast_mem hne)

theorem charJoin_getLast?_ne_newline (l : List (List Char)) (hl : l ≠ [])
    (h : ∀ x ∈ l, CleanCh x) : (charJoin l).getLast? ≠ some '\n' := by
  rw [charJoin_getLast? l hl h]
  have hmem : l.getLastD [] ∈ l := by
    cases l with
    | nil => exact absurd rfl hl
    | cons x xs =>
      rw [List.getLastD_eq_getLast?, List.getLast?_eq_getLast_of_ne_nil (by simp)]
      exact List.getLast_mem _
  exact getLast?_ne_of_not_mem (h _ hmem).2.1

theorem splitNL_charJoin (l : List (List Char)) (hl : l ≠ [])
    (h : ∀ x ∈ l, CleanCh x) : splitNL (charJoin l) = l := by
  induction l with
  | nil => exact absurd rfl hl
  | cons x xs ih =>
    cases xs with
    | nil =>
      simp only [charJoin]
      exact splitNL_no_newline x (h x (List.mem_cons_self _ _)).2.1
    | cons y ys =>
      have hys : ∀ z ∈ y :: ys, CleanCh z := fun z hz =>
        h z (List.mem_cons_of_mem x hz)
      simp only [charJoin]
      rw [splitNL_append x _ (h x (List.mem_cons_self _ _)).2.1]
      rw [ih (by simp) hys]

theorem stripCR_clean {x : List Char} (h : CleanCh x) : stripCR x = x := by
  simp [stripCR, h.2.2]

theorem map_id_of_mem {α : Type} (f : α → α) (l : List α)
    (h : ∀ x ∈ l, f x = x) : l.map f = l := by
  induction l with
  | nil => rfl
  | cons x xs ih =>
    simp only [List.map]
    rw [h x (List.mem_cons_self _ _), ih (fun z hz => h z (List.mem_cons_of_mem x hz))]

theorem linesCh_charJoin (l : List (List Char)) (h : ∀ x ∈ l, CleanCh x) :
    linesCh (charJoin l) = l := by
  cases l with
  | nil => rfl
  | cons x xs =>
    have hl : (x :: xs : List (List Char)) ≠ [] := by simp
    have hne : charJoin (x :: xs) ≠ [] :=
      charJoin_ne_nil _ hl (fun z hz => (h z hz).1)
    have hnl : (charJoin (x :: xs)).getLast? ≠ some '\n' :=
      charJoin_getLast?_ne_newline _ hl h
    have hsplit : splitNL (charJoin (x :: xs)) = x :: xs :=
      splitNL_charJoin _ hl h
    simp only [linesCh, if_neg hne, if_neg hnl, hsplit]
    have hlast : ((x :: xs : List (List Char)).getLastD []) ∈ x :: xs := by
      rw [List.getLastD_eq_getLast?, List.getLast?_eq_getLast_of_ne_nil hl]
      exact List.getLast_mem _
    have hmap : ((x :: xs : List (List Char)).dropLast).map stripCR =
        (x :: xs : List (List Char)).dropLast :=
      map_id_of_mem _ _ (fun z hz => stripCR_clean (h z (List.dropLast_subset _ hz)))
    rw [hmap, List.getLastD_eq_getLast?,
      List.getLast?_eq_getLast_of_ne_nil hl, Option.getD_some,
      List.dropLast_append_getLast hl]

theorem string_mk_data (s : String) : String.mk s.data = s := by
  cases s; rfl

theorem rustLines_joinNL (l : List String) (h : ∀ x ∈ l, CleanLine x) :
    rustLines (joinNL l) = l := by
  unfold rustLines
  rw [joinNL_data, linesCh_charJoin _ (by
    intro x hx
    rcases List.mem_map.mp hx with ⟨y, hy, rfl⟩
    exact cleanCh_of_cleanLine (h y hy))]
  rw [List.map_map]
  exact map_id_of_mem _ l (fun x _ => string_mk_data x)

/-- One token of a transport argument vector.  String tokens are passed
verbatim; `n` is a commit count, serialized by the source with
`usize::to_string` and modelled here as the exact number it denotes. -/
inductive GitArg where
  | s (v : String)
  | n (v : Nat)
deriving DecidableEq, Repr

/-- The abstract queries of the Command Runner (spec section 6). -/
inductive GitCmd where
  | revParseHead
  | checkoutObj (o : String)
  | logAll (k : Nat)
  | logPath (k : Nat) (p : String)
  | diffTree (h : String)
  | unknown
deriving DecidableEq, Repr

/-- Modelled from the spec: recognition of the argument vectors the source
issues, each mapped to the abstract query of the Command Runner it denotes
(spec section 6: resolve symbolic reference, check out a reference, list the
last N commit hashes globally or restricted to a path, list files changed in
a commit). -/
def parseArgs : List GitArg → GitCmd
  | [GitArg.s "rev-parse", GitArg.s "--abbrev-ref", GitArg.s "HEAD"] =>
      GitCmd.revParseHead
  | [GitArg.s "checkout", GitArg.s o] => GitCmd.checkoutObj o
  | [GitArg.s "--format=\"%H\"", GitArg.s "-n", GitArg.n k] => GitCmd.logAll k
  | [GitArg.s "log", GitArg.s "--format=%H", GitArg.s "-n", GitArg.n k, GitArg.s p] =>
      GitCmd.logPath k p
  | [GitArg.s "diff-tree", GitArg.s "--no-commit-id", GitArg.s "--name-only",
      GitArg.s "-r", GitArg.s h] => GitCmd.diffTree h
  | _ => GitCmd.unknown

/-- Whether a commit touched the given path. -/
def touches (p : String) (c : Commit) : Bool := c.files.contains p

/-- Whether an object name resolves for checkout: the branch name or a commit
identifier of the history. -/
def resolvesRef (s : GitState) (obj : String) : Bool :=
  obj == s.branch || (s.commits.map Commit.hash).contains obj

/-- Successful transport result with the given standard output. -/
def okOut (text : String) : Output := { status := 0, stdout := text, stderr := "" }

/-- The exact failure text the source looks for when HEAD cannot be resolved
in a repository without commits. -/
def fatalHeadNeedle : String :=
  "fatal: ambiguous argument \x27HEAD\x27: unknown revision or path not in the working tree."

/-- Ghost step: count one transport invocation. -/
def bump (s : GitState) : GitState := { s with calls := s.calls + 1 }

/-- Modelled from the spec: the external Command Runner (spec section 6).
Executes one abstract query against the working-tree state and returns the
transport result.  Only a checkout of a resolvable reference moves the
working tree; every invocation bumps the ghost call counter. -/
def runCmd (s : GitState) : GitCmd → Output × GitState
  | GitCmd.revParseHead =>
      if s.commits.isEmpty then
        ({ status := 128, stdout := "", stderr := fatalHeadNeedle }, bump s)
      else (okOut s.branch, bump s)
  | GitCmd.checkoutObj o =>
      if resolvesRef s o then (okOut "", { bump s with head := o })
      else
        ({ status := 1, stdout := "",
           stderr := "error: pathspec " ++ o ++ " did not match any file known to git" },
         bump s)
  | GitCmd.logAll k =>
      (okOut (joinNL ((s.commits.take k).map Commit.hash)), bump s)
  | GitCmd.logPath k p =>
      (okOut (joinNL (((s.commits.filter (fun c => touches p c)).take k).map Commit.hash)),
       bump s)
  | GitCmd.diffTree h =>
      match s.commits.find? (fun c => c.hash == h) with
      | some c => (okOut (joinNL c.files), bump s)
      | none => ({ status := 128, stdout := "", stderr := "fatal: bad object " ++ h }, bump s)
  | GitCmd.unknown => ({ status := 129, stdout := "", stderr := "usage: git" }, bump s)

/-- Modelled from the spec: `git_in_dir` / transport entry point — run one
argument vector against the working tree. -/
def runGit (s : GitState) (args : List GitArg) : Output × GitState :=
  runCmd s (parseArgs args)

/-- Decode a transport result (`fn stdout` of the source): any non-empty
error stream is returned as a failure carrying the error-stream text,
regardless of the exit status; otherwise the standard output is returned. -/
def stdout (output : Output) : Except String String :=
  if output.stderr = "" then Except.ok output.stdout
  else Except.error output.stderr

/-- A path argument as received by the source (`impl AsRef<Path>`): it either
converts to valid text for the transport call or it does not
(`Path::to_str` returning `None`). -/
inductive FsPath where
  | representable (s : String)
  | unrepresentable
deriving DecidableEq, Repr

/-- `Path::to_str`. -/
def FsPath.toStr : FsPath → Option String
  | FsPath.representable s => some s
  | FsPath.unrepresentable => none

/-- The repository handle of the source: root directory and the branch name
captured at construction. -/
structure Repo where
  directory : String
  current_branch : String
deriving DecidableEq, Repr

/-- Run a git command in the repository git directory (`Repo::git`).  The
model holds a single working tree, so the stored directory selects it
implicitly. -/
def Repo.git (_r : Repo) (s : GitState) (args : List GitArg) : Output × GitState :=
  runGit s args

/-- The error text the source maps the empty-repository case to. -/
def noCommitsRemap : String := "git repository does not contain any commit."

/-- Substring test on character lists (Rust `str::contains`). -/
def containsSub : List Char → List Char → Bool
  | [], needle => needle.isEmpty
  | h :: t, needle => needle.isPrefixOf (h :: t) || containsSub t needle

/-- Substring test on strings (Rust `str::contains`). -/
def containsStr (hay needle : String) : Bool := containsSub hay.data needle.data

/-- Error mapping of `Repo::get_current_branch`: a decode failure whose text
contains the specific unknown-revision-HEAD message is remapped to the stable
no-commits error; any other failure is surfaced unchanged. -/
def decode_head (output : Output) : Except String String :=
  match stdout output with
  | Except.ok b => Except.ok b
  | Except.error e =>
      Except.error (if containsStr e fatalHeadNeedle then noCommitsRemap else e)

/-- `Repo::get_current_branch`: resolve the symbolic reference HEAD and decode
the result with the no-commits remapping. -/
def Repo.get_current_branch (s : GitState) : Except String String × GitState :=
  let res := runGit s [GitArg.s "rev-parse", GitArg.s "--abbrev-ref", GitArg.s "HEAD"]
  (decode_head res.fst, res.snd)

/-- `Repo::new`: build a handle from a directory, failing when the current
branch cannot be resolved.  The one-time logging setup the source triggers
here is process-global state with no observable effect on the repository
model and is omitted. -/
def Repo.new (directory : String) (s : GitState) : Except String Repo × GitState :=
  match Repo.get_current_branch s with
  | (Except.ok current_branch, s1) =>
      (Except.ok { directory := directory, current_branch := current_branch }, s1)
  | (Except.error e, s1) => (Except.error e, s1)

/-- `Repo::checkout_head`: check out the branch captured at construction. -/
def Repo.checkout_head (r : Repo) (s : GitState) : Except String Unit × GitState :=
  let res := r.git s [GitArg.s "checkout", GitArg.s r.current_branch]
  (Except.ok (), res.snd)

/-- `Repo::nth_commit`: request the `nth` most recent commit identifiers and
take the last entry of the returned list; fail with the no-commits message
when the list is empty. -/
def Repo.nth_commit (r : Repo) (s : GitState) (nth : Nat) : Except String String × GitState :=
  let res := r.git s [GitArg.s "--format=\"%H\"", GitArg.s "-n", GitArg.n nth]
  match stdout res.fst with
  | Except.error e => (Except.error e, res.snd)
  | Except.ok commit_list =>
      match (rustLines commit_list).getLast? with
      | none => (Except.error "repository has no commits", res.snd)
      | some last_commit => (Except.ok last_commit, res.snd)

/-- `Repo::current_commit` = `nth_commit(1)`. -/
def Repo.current_commit (r : Repo) (s : GitState) : Except String String × GitState :=
  r.nth_commit s 1

/-- `Repo::previous_commit` = `nth_commit(2)`. -/
def Repo.previous_commit (r : Repo) (s : GitState) : Except String String × GitState :=
  r.nth_commit s 2

/-- `Repo::checkout`: run the transport checkout and ignore its result; the
source only propagates a failure to spawn the transport, which the model
treats as impossible. -/
def Repo.checkout (r : Repo) (s : GitState) (object : String) : Except String Unit × GitState :=
  let res := r.git s [GitArg.s "checkout", GitArg.s object]
  (Except.ok (), res.snd)

/-- `Repo::checkout_last_commit`: resolve the previous commit, then check it
out. -/
def Repo.checkout_last_commit (r : Repo) (s : GitState) : Except String Unit × GitState :=
  match r.previous_commit s with
  | (Except.error e, s1) => (Except.error e, s1)
  | (Except.ok previous, s1) => r.checkout s1 previous

/-- `fs::canonicalize` against the modelled filesystem view: resolve a
repository-relative path to its absolute, symlink-resolved form, failing when
the path cannot be resolved on disk. -/
def canonicalize (s : GitState) (p : String) : Option String := s.fs.lookup p

/-- `Repo::edited_file_in_current_commit`: resolve the current commit, list
the files it changed and canonicalize each of them; collection is
all-or-nothing, failing as soon as one path cannot be resolved. -/
def Repo.edited_file_in_current_commit (r : Repo) (s : GitState) :
    Except String (List String) × GitState :=
  match r.current_commit s with
  | (Except.error e, s1) => (Except.error e, s1)
  | (Except.ok commit, s1) =>
    let res := r.git s1 [GitArg.s "diff-tree", GitArg.s "--no-commit-id",
      GitArg.s "--name-only", GitArg.s "-r", GitArg.s commit]
    match stdout res.fst with
    | Except.error e => (Except.error e, res.snd)
    | Except.ok files =>
        match (rustLines files).mapM (canonicalize res.snd) with
        | none => (Except.error "file resolution failed", res.snd)
        | some paths => (Except.ok paths, res.snd)

/-- `Repo::nth_commit_at_path`: same resolution as `nth_commit`, restricted to
commits that touched the given path; fails first when the path does not
convert to text, before any transport call. -/
def Repo.nth_commit_at_path (r : Repo) (s : GitState) (nth : Nat) (path : FsPath) :
    Except String String × GitState :=
  match path.toStr with
  | none => (Except.error "invalid path", s)
  | some p =>
    let res := r.git s [GitArg.s "log", GitArg.s "--format=%H", GitArg.s "-n",
      GitArg.n nth, GitArg.s p]
    match stdout res.fst with
    | Except.error e => (Except.error e, res.snd)
    | Except.ok commit_list =>
        match (rustLines commit_list).getLast? with
        | none => (Except.error "repository has no commits", res.snd)
        | some last_commit => (Except.ok last_commit, res.snd)

/-- `Repo::previous_commit_at_path` = `nth_commit_at_path(2, path)`. -/
def Repo.previous_commit_at_path (r : Repo) (s : GitState) (path : FsPath) :
    Except String String × GitState :=
  r.nth_commit_at_path s 2 path

/-- `Repo::checkout_previous_commit_at_path`: resolve the previous commit in
the path history, then check it out. -/
def Repo.checkout_previous_commit_at_path (r : Repo) (s : GitState) (path : FsPath) :
    Except String Unit × GitState :=
  match r.previous_commit_at_path s path with
  | (Except.error e, s1) => (Except.error e, s1)
  | (Except.ok commit, s1) => r.checkout s1 commit

/-! Unfolding lemmas for the transport dispatch and concrete sample data used
by the witnesses. -/

theorem parse_revParse :
    parseArgs [GitArg.s "rev-parse", GitArg.s "--abbrev-ref", GitArg.s "HEAD"] =
      GitCmd.revParseHead := rfl

theorem parse_checkout (o : String) :
    parseArgs [GitArg.s "checkout", GitArg.s o] = GitCmd.checkoutObj o := rfl

theorem parse_logAll (k : Nat) :
    parseArgs [GitArg.s "--format=\"%H\"", GitArg.s "-n", GitArg.n k] =
      GitCmd.logAll k := rfl

theorem parse_logPath (k : Nat) (p : String) :
    parseArgs [GitArg.s "log", GitArg.s "--format=%H", GitArg.s "-n",
      GitArg.n k, GitArg.s p] = GitCmd.logPath k p := rfl

theorem parse_diffTree (h : String) :
    parseArgs [GitArg.s "diff-tree", GitArg.s "--no-commit-id",
      GitArg.s "--name-only", GitArg.s "-r", GitArg.s h] = GitCmd.diffTree h := rfl

theorem stdout_okOut (t : String) : stdout (okOut t) = Except.ok t := rfl

/-- Closed form of `nth_commit`: the transport returns the `n` most recent
commit identifiers, and the source takes the last line of that listing. -/
theorem nth_commit_eq (r : Repo) (s : GitState) (n : Nat) :
    r.nth_commit s n =
      ((match (rustLines (joinNL ((s.commits.take n).map Commit.hash))).getLast? with
        | none => Except.error "repository has no commits"
        | some last_commit => Except.ok last_commit), bump s) := by
  unfold Repo.nth_commit Repo.git runGit
  rw [parse_logAll]
  simp only [runCmd, stdout_okOut]
  cases (rustLines (joinNL ((s.commits.take n).map Commit.hash))).getLast? <;> rfl

/-- Closed form of `nth_commit_at_path` on a representable path: the history
listing is restricted to commits that touched the path. -/
theorem nth_commit_at_path_eq (r : Repo) (s : GitState) (n : Nat) (p : String) :
    r.nth_commit_at_path s n (FsPath.representable p) =
      ((match (rustLines (joinNL (((s.commits.filter (fun c => touches p c)).take n).map
          Commit.hash))).getLast? with
        | none => Except.error "repository has no commits"
        | some last_commit => Except.ok last_commit), bump s) := by
  unfold Repo.nth_commit_at_path
  simp only [FsPath.toStr]
  unfold Repo.git runGit
  rw [parse_logPath]
  simp only [runCmd, stdout_okOut]
  cases (rustLines (joinNL (((s.commits.filter (fun c => touches p c)).take n).map
    Commit.hash))).getLast? <;> rfl

/-- Sample commit touching file `a` (oldest in the sample history). -/
def sampleC1 : Commit := { hash := "h1", message := "m1", files := ["a"] }

/-- Sample commit touching only file `b`. -/
def sampleC2 : Commit := { hash := "h2", message := "m2", files := ["b"] }

/-- Sample commit touching file `a` (tip of the sample history). -/
def sampleC3 : Commit := { hash := "h3", message := "m3", files := ["a"] }

/-- Sample three-commit working tree on branch `main`. -/
def sampleState : GitState :=
  { commits := [sampleC3, sampleC2, sampleC1], branch := "main", head := "main",
    fs := [("a", "/repo/a"), ("b", "/repo/b")], calls := 0 }

/-- Sample working tree with no commits. -/
def emptyState : GitState :=
  { commits := [], branch := "main", head := "main", fs := [], calls := 0 }

/-- Sample repository handle for `sampleState`. -/
def sampleRepo : Repo := { directory := "/repo", current_branch := "main" }

/-- C2: decoding a transport result treats any non-empty error-stream content
as a hard failure carrying that content, whatever the exit status says, and
reports success (the standard output) exactly when the error stream is
empty. -/
theorem stdout_error_stream_policy (o : Output) :
    (o.stderr ≠ "" → stdout o = Except.error o.stderr) ∧
    (o.stderr = "" → stdout o = Except.ok o.stdout) := by
  constructor
  · intro h
    simp [stdout, h]
  · intro h
    simp [stdout, h]

/-- Witness for C2: a transport result with exit status 0 and a warning on the
error stream decodes to a failure; one with an empty error stream and a
non-zero exit status decodes to its standard output. -/
theorem stdout_error_stream_policy_witness :
    stdout { status := 0, stdout := "out", stderr := "warning" } =
        Except.error "warning" ∧
    stdout { status := 1, stdout := "out", stderr := "" } = Except.ok "out" :=
  ⟨(stdout_error_stream_policy _).1 (by decide),
   (stdout_error_stream_policy _).2 rfl⟩

/-- C9: a path that cannot be represented as text makes `nth_commit_at_path`
fail with the invalid-path error for every requested offset, leaving the
working-tree state (including the transport call counter) untouched: no
transport invocation is issued. -/
theorem nth_commit_at_path_invalid_path (r : Repo) (s : GitState) (n : Nat) :
    r.nth_commit_at_path s n FsPath.unrepresentable = (Except.error "invalid path", s) := rfl

/-- C10: an offset of zero produces an empty bounded listing, so both
`nth_commit(0)` and `nth_commit_at_path(0, path)` fail with the
repository-has-no-commits error on every repository state, however many
commits exist. -/
theorem nth_commit_zero_offset (r : Repo) (s : GitState) (p : String) :
    (r.nth_commit s 0).fst = Except.error "repository has no commits" ∧
    (r.nth_commit_at_path s 0 (FsPath.representable p)).fst =
      Except.error "repository has no commits" := by
  refine ⟨?_, ?_⟩
  · rw [nth_commit_eq]
    simp [List.take_zero, joinNL, rustLines, linesCh]
  · rw [nth_commit_at_path_eq]
    simp [List.take_zero, joinNL, rustLines, linesCh]

/-- C1: with commits c1 (oldest), c2, c3 (tip), `nth_commit(1)` resolves to
c3, `nth_commit(2)` to c2, and `nth_commit(5)` — an offset larger than the
history depth — to the oldest commit c1 instead of failing; in general,
resolution takes the last entry of the bounded reverse-chronological listing
of the n most recent commit identifiers and fails with the no-commits error
exactly when that listing is completely empty. -/
theorem nth_commit_degrades_to_oldest (r : Repo) (s : GitState) (c1 c2 c3 : Commit)
    (hc : s.commits = [c3, c2, c1])
    (h1 : CleanLine c1.hash) (h2 : CleanLine c2.hash) (h3 : CleanLine c3.hash) :
    ((r.nth_commit s 1).fst = Except.ok c3.hash ∧
     (r.nth_commit s 2).fst = Except.ok c2.hash ∧
     (r.nth_commit s 5).fst = Except.ok c1.hash) ∧
    ∀ (s' : GitState) (n : Nat), (∀ c ∈ s'.commits, CleanLine c.hash) →
      ((r.nth_commit s' n).fst = Except.error "repository has no commits" ↔
        s'.commits.take n = []) := by
  refine ⟨⟨?_, ?_, ?_⟩, ?_⟩
  · rw [nth_commit_eq, hc]
    rw [show (([c3, c2, c1].take 1).map Commit.hash) = [c3.hash] from rfl]
    rw [rustLines_joinNL _ (by
      intro x hx
      simp only [List.mem_cons, List.not_mem_nil, or_false] at hx
      exact hx ▸ h3)]
    rfl
  · rw [nth_commit_eq, hc]
    rw [show (([c3, c2, c1].take 2).map Commit.hash) = [c3.hash, c2.hash] from rfl]
    rw [rustLines_joinNL _ (by
      intro x hx
      simp only [List.mem_cons, List.not_mem_nil, or_false] at hx
      rcases hx with rfl | rfl
      · exact h3
      · exact h2)]
    rfl
  · rw [nth_commit_eq, hc]
    rw [show (([c3, c2, c1].take 5).map Commit.hash) = [c3.hash, c2.hash, c1.hash] from rfl]
    rw [rustLines_joinNL _ (by
      intro x hx
      simp only [List.mem_cons, List.not_mem_nil, or_false] at hx
      rcases hx with rfl | rfl | rfl
      · exact h3
      · exact h2
      · exact h1)]
    rfl
  · intro s' n hclean
    rw [nth_commit_eq]
    have hcleanmap : ∀ x ∈ (s'.commits.take n).map Commit.hash, CleanLine x := by
      intro x hx
      rcases List.mem_map.mp hx with ⟨c, hcmem, rfl⟩
      exact hclean c (List.take_subset _ _ hcmem)
    rw [rustLines_joinNL _ hcleanmap]
    cases htake : s'.commits.take n with
    | nil => simp
    | cons c cs =>
      have hne : ((c :: cs).map Commit.hash) ≠ [] := by simp
      rw [List.getLast?_eq_getLast_of_ne_nil hne]
      simp

/-- Witness for C1: on the sample three-commit history, requesting the fifth
commit back resolves to the oldest commit. -/
theorem nth_commit_degrades_to_oldest_witness :
    (sampleRepo.nth_commit sampleState 5).fst = Except.ok "h1" :=
  (nth_commit_degrades_to_oldest sampleRepo sampleState sampleC1 sampleC2 sampleC3 rfl
    (by decide) (by decide) (by decide)).1.2.2

/-- C3: construction on a repository with zero commits fails with the stable
no-commits message, obtained by remapping the specific unknown-revision-HEAD
failure text of the transport; a decode failure not containing that text is
surfaced unchanged; on success the branch name active at HEAD is captured and
stored in the handle. -/
theorem new_detects_empty_repository (directory : String) (s : GitState) :
    (s.commits = [] → Repo.new directory s = (Except.error noCommitsRemap, bump s)) ∧
    (s.commits ≠ [] →
      Repo.new directory s =
        (Except.ok { directory := directory, current_branch := s.branch }, bump s)) ∧
    (∀ o : Output, o.stderr ≠ "" → containsStr o.stderr fatalHeadNeedle = false →
      decode_head o = Except.error o.stderr) := by
  have hfatal : containsStr fatalHeadNeedle fatalHeadNeedle = true := by decide
  have hfatalne : fatalHeadNeedle ≠ "" := by decide
  refine ⟨?_, ?_, ?_⟩
  · intro h
    simp only [Repo.new, Repo.get_current_branch, runGit, parse_revParse, runCmd, h,
      List.isEmpty_nil, if_true]
    have hdec : decode_head { status := 128, stdout := "", stderr := fatalHeadNeedle } =
        Except.error noCommitsRemap := by
      simp [decode_head, stdout, hfatalne, hfatal]
    rw [hdec]
  · intro h
    have hempty : s.commits.isEmpty = false := by
      cases hc : s.commits
      · exact absurd hc h
      · rfl
    simp only [Repo.new, Repo.get_current_branch, runGit, parse_revParse, runCmd,
      hempty, Bool.false_eq_true, if_false]
    rw [show decode_head (okOut s.branch) = Except.ok s.branch from rfl]
  · intro o h1 h2
    have hstd : stdout o = Except.error o.stderr := (stdout_error_stream_policy o).1 h1
    simp [decode_head, hstd, h2]

/-- Witness for C3: construction fails with the remapped message on the empty
sample state, succeeds and captures the branch on the three-commit sample
state, and a decode failure with unrelated text is surfaced unchanged. -/
theorem new_detects_empty_repository_witness :
    Repo.new "/repo" emptyState = (Except.error noCommitsRemap, bump emptyState) ∧
    Repo.new "/repo" sampleState =
      (Except.ok { directory := "/repo", current_branch := "main" }, bump sampleState) ∧
    decode_head { status := 1, stdout := "", stderr := "boom" } = Except.error "boom" :=
  ⟨(new_detects_empty_repository "/repo" emptyState).1 rfl,
   (new_detects_empty_repository "/repo" sampleState).2.1 (by decide),
   (new_detects_empty_repository "/repo" emptyState).2.2 _ (by decide) (by decide)⟩

/-- Counterexample for C4 as stated: checking out an object the transport
cannot resolve makes the transport report a definitive failure (non-zero exit
status and error-stream content), yet `checkout` reports success to the
caller — the failure is not surfaced. -/
theorem checkout_failure_not_surfaced_cex :
    (runGit sampleState [GitArg.s "checkout", GitArg.s "nope"]).fst.status = 1 ∧
    (runGit sampleState [GitArg.s "checkout", GitArg.s "nope"]).fst.stderr ≠ "" ∧
    (sampleRepo.checkout sampleState "nope").fst = Except.ok () := by decide

/-- C4 (amended): `checkout` repositions the working tree to the given object
when the transport resolves it, and always reports success: it ignores the
transport result entirely, including warnings on the error stream and
definitive-failure exit statuses; it can only fail when the transport cannot
be invoked at all. -/
theorem checkout_ignores_transport_outcome (r : Repo) (s : GitState) (object : String) :
    (r.checkout s object).fst = Except.ok () ∧
    (resolvesRef s object = true → (r.checkout s object).snd.head = object) := by
  constructor
  · rfl
  · intro h
    simp only [Repo.checkout, Repo.git, runGit, parse_checkout, runCmd, h, if_true]

/-- Witness for C4 (amended): checking out commit `h1` of the sample history
succeeds and moves the working tree there. -/
theorem checkout_ignores_transport_outcome_witness :
    (sampleRepo.checkout sampleState "h1").fst = Except.ok () ∧
    (sampleRepo.checkout sampleState "h1").snd.head = "h1" :=
  ⟨(checkout_ignores_transport_outcome sampleRepo sampleState "h1").1,
   (checkout_ignores_transport_outcome sampleRepo sampleState "h1").2 (by decide)⟩

/-- C5: path-scoped resolution only considers commits that touched the path:
with a history of a commit touching A, then a commit not touching A, then a
commit touching A at the tip, `previous_commit_at_path(A)` resolves to the
first commit touching A, skipping the intervening commit. -/
theorem previous_commit_at_path_skips_untouched (r : Repo) (s : GitState)
    (a : String) (cA1 cB cA2 : Commit)
    (hc : s.commits = [cA2, cB, cA1])
    (h1 : touches a cA1 = true) (h2 : touches a cB = false) (h3 : touches a cA2 = true)
    (hh1 : CleanLine cA1.hash) (hh2 : CleanLine cA2.hash) :
    (r.previous_commit_at_path s (FsPath.representable a)).fst = Except.ok cA1.hash := by
  unfold Repo.previous_commit_at_path
  rw [nth_commit_at_path_eq, hc]
  rw [show List.filter (fun c => touches a c) [cA2, cB, cA1] = [cA2, cA1] from by
    simp [List.filter_cons, h1, h2, h3]]
  rw [show (([cA2, cA1].take 2).map Commit.hash) = [cA2.hash, cA1.hash] from rfl]
  rw [rustLines_joinNL _ (by
    intro x hx
    simp only [List.mem_cons, List.not_mem_nil, or_false] at hx
    rcases hx with rfl | rfl
    · exact hh2
    · exact hh1)]
  rfl

/-- Witness for C5: in the sample history (tip touches `a`, middle commit
touches only `b`, oldest touches `a`), the previous commit at path `a`
resolves to the oldest commit, skipping the middle one. -/
theorem previous_commit_at_path_skips_untouched_witness :
    (sampleRepo.previous_commit_at_path sampleState (FsPath.representable "a")).fst =
      Except.ok "h1" :=
  previous_commit_at_path_skips_untouched sampleRepo sampleState "a"
    sampleC1 sampleC2 sampleC3 rfl (by decide) (by decide) (by decide)
    (by decide) (by decide)

/-- C6: when no commit touched the path (the path-scoped history listing is
empty), `checkout_previous_commit_at_path` fails with the no-commits error
after the single history query, and the working tree is left unchanged: the
resulting state differs from the initial one only by the ghost transport-call
counter, so no checkout transition happens. -/
theorem checkout_previous_commit_at_path_no_history (r : Repo) (s : GitState) (p : String)
    (h : s.commits.filter (fun c => touches p c) = []) :
    (r.checkout_previous_commit_at_path s (FsPath.representable p)).fst =
        Except.error "repository has no commits" ∧
    (r.checkout_previous_commit_at_path s (FsPath.representable p)).snd = bump s ∧
    (r.checkout_previous_commit_at_path s (FsPath.representable p)).snd.head = s.head := by
  have hres : r.previous_commit_at_path s (FsPath.representable p) =
      (Except.error "repository has no commits", bump s) := by
    unfold Repo.previous_commit_at_path
    rw [nth_commit_at_path_eq, h]
    rfl
  unfold Repo.checkout_previous_commit_at_path
  rw [hres]
  exact ⟨rfl, rfl, rfl⟩

/-- Witness for C6: no commit of the sample history touched path `zzz`, so the
checkout-previous operation fails and the working tree stays put. -/
theorem checkout_previous_commit_at_path_no_history_witness :
    (sampleRepo.checkout_previous_commit_at_path sampleState
        (FsPath.representable "zzz")).fst = Except.error "repository has no commits" ∧
    (sampleRepo.checkout_previous_commit_at_path sampleState
        (FsPath.representable "zzz")).snd.head = sampleState.head :=
  ⟨(checkout_previous_commit_at_path_no_history sampleRepo sampleState "zzz" (by decide)).1,
   (checkout_previous_commit_at_path_no_history sampleRepo sampleState "zzz" (by decide)).2.2⟩

/-- C7: `edited_file_in_current_commit` lists the files changed in the HEAD
commit with every repository-relative path resolved through canonicalization,
and collection is all-or-nothing: when every listed file resolves the full
resolved list is returned, and when any listed file fails to resolve the
operation fails with a resolution error and no partial list is returned. -/
theorem edited_file_in_current_commit_all_or_nothing (r : Repo) (s : GitState)
    (c : Commit) (rest : List Commit)
    (hc : s.commits = c :: rest)
    (hh : CleanLine c.hash)
    (hf : ∀ f ∈ c.files, CleanLine f) :
    (∀ paths, c.files.mapM (canonicalize s) = some paths →
      (r.edited_file_in_current_commit s).fst = Except.ok paths) ∧
    (c.files.mapM (canonicalize s) = none →
      (r.edited_file_in_current_commit s).fst =
        Except.error "file resolution failed") := by
  have hcur : r.current_commit s = (Except.ok c.hash, bump s) := by
    unfold Repo.current_commit
    rw [nth_commit_eq, hc]
    rw [show (((c :: rest).take 1).map Commit.hash) = [c.hash] from rfl]
    rw [rustLines_joinNL _ (by
      intro x hx
      simp only [List.mem_cons, List.not_mem_nil, or_false] at hx
      exact hx ▸ hh)]
    rfl
  unfold Repo.edited_file_in_current_commit
  rw [hcur]
  simp only [Repo.git, runGit, parse_diffTree, runCmd]
  rw [show (bump s).commits = c :: rest from by simp [bump, hc]]
  rw [List.find?_cons_of_pos _ (by simp)]
  simp only [stdout_okOut]
  rw [rustLines_joinNL _ hf]
  have hcanon : canonicalize (bump (bump s)) = canonicalize s := rfl
  rw [hcanon]
  constructor
  · intro paths hp
    rw [hp]
  · intro hp
    rw [hp]

/-- Witness for C7: in the sample state the tip commit changed file `a`,
which canonicalizes to `/repo/a`; on a second state whose filesystem view
lacks `a`, the operation fails with the resolution error. -/
theorem edited_file_in_current_commit_all_or_nothing_witness :
    (sampleRepo.edited_file_in_current_commit sampleState).fst =
        Except.ok ["/repo/a"] ∧
    (sampleRepo.edited_file_in_current_commit
        { sampleState with fs := [] }).fst =
      Except.error "file resolution failed" :=
  ⟨(edited_file_in_current_commit_all_or_nothing sampleRepo sampleState
      sampleC3 [sampleC2, sampleC1] rfl (by decide) (by decide)).1 ["/repo/a"] (by decide),
   (edited_file_in_current_commit_all_or_nothing sampleRepo
      { sampleState with fs := [] }
      sampleC3 [sampleC2, sampleC1] rfl (by decide) (by decide)).2 (by decide)⟩

/-- A sequence of intervening `checkout` operations, applied in order. -/
def runCheckouts (r : Repo) (s : GitState) : List String → GitState
  | [] => s
  | o :: os => runCheckouts r (r.checkout s o).snd os

theorem checkout_snd_branch (r : Repo) (s : GitState) (o : String) :
    (r.checkout s o).snd.branch = s.branch := by
  simp only [Repo.checkout, Repo.git, runGit, parse_checkout, runCmd]
  split <;> rfl

theorem runCheckouts_branch (r : Repo) (objs : List String) :
    ∀ s : GitState, (runCheckouts r s objs).branch = s.branch := by
  induction objs with
  | nil => intro s; rfl
  | cons o os ih =>
    intro s
    rw [show runCheckouts r s (o :: os) = runCheckouts r (r.checkout s o).snd os from rfl,
      ih, checkout_snd_branch]

/-- C8: the branch name stored in the handle is fixed at construction, and
after `checkout_head` (which always reports success) the working tree has
that original branch checked out again, whatever sequence of checkout
operations happened in between. -/
theorem checkout_head_restores_original_branch (directory : String) (s0 : GitState)
    (r : Repo) (s1 : GitState)
    (hnew : Repo.new directory s0 = (Except.ok r, s1)) (objs : List String) :
    r.current_branch = s0.branch ∧
    (r.checkout_head (runCheckouts r s1 objs)).fst = Except.ok () ∧
    (r.checkout_head (runCheckouts r s1 objs)).snd.head = s0.branch := by
  have hbranch : r.current_branch = s0.branch ∧ s1 = bump s0 := by
    rcases hcs : s0.commits with _ | ⟨c, cs⟩
    · have hfail := (new_detects_empty_repository directory s0).1 hcs
      rw [hfail] at hnew
      exact absurd (congrArg Prod.fst hnew) (by simp)
    · have hne : s0.commits ≠ [] := by rw [hcs]; simp
      have hok := (new_detects_empty_repository directory s0).2.1 hne
      rw [hok] at hnew
      have h1 : Except.ok ({ directory := directory, current_branch := s0.branch } : Repo) =
          Except.ok r := congrArg Prod.fst hnew
      have h2 : bump s0 = s1 := congrArg Prod.snd hnew
      have h3 : ({ directory := directory, current_branch := s0.branch } : Repo) = r :=
        Except.ok.inj h1
      exact ⟨(congrArg Repo.current_branch h3).symm, h2.symm⟩
  refine ⟨hbranch.1, rfl, ?_⟩
  have hNb : (runCheckouts r s1 objs).branch = s0.branch := by
    rw [runCheckouts_branch, hbranch.2]
    rfl
  simp only [Repo.checkout_head, Repo.git, runGit, parse_checkout, runCmd]
  have hres : resolvesRef (runCheckouts r s1 objs) r.current_branch = true := by
    simp [resolvesRef, hbranch.1, hNb]
  simp only [hres, if_true]
  exact hbranch.1

/-- Witness for C8: constructing on the sample state, checking out commit
`h1`, then `checkout_head`, leaves branch `main` checked out. -/
theorem checkout_head_restores_original_branch_witness :
    (sampleRepo.checkout_head (runCheckouts sampleRepo (bump sampleState) ["h1"])).snd.head =
      "main" :=
  (checkout_head_restores_original_branch "/repo" sampleState sampleRepo
    (bump sampleState) (by decide) ["h1"]).2.2
